import Mathlib

/-!
Verification of the nicapi ACME DNS-01 solver (`nicapi.go`).

The Go source is shallowly embedded: Go strings become Lean `String`
(operated on through their character list `.data`), the JSON structs become
Lean structures, and the two entry points `Present` and `CleanUp` become
pure functions that take the outcomes of the external collaborators (the
zone lookup and the HTTP round trips) as explicit inputs and return the
Go result together with the ordered trace of HTTP requests they issue.
-/

namespace Nicapi

/-- Go `strings.HasSuffix s suf`: reports whether `s` ends with `suf`. -/
def hasSuffix (s suf : String) : Bool :=
  suf.data.isSuffixOf s.data

/-- Go slice `s[:len(s)-n]`: drop the last `n` characters of `s`. -/
def dropLastChars (s : String) (n : Nat) : String :=
  ⟨s.data.take (s.data.length - n)⟩

/-- Go `strings.TrimSuffix s suf`: returns `s` without the provided trailing
suffix string; `s` unchanged if it does not end with `suf`. -/
def trimSuffix (s suf : String) : String :=
  if hasSuffix s suf then dropLastChars s suf.length else s

/-- Modelled from the spec: `util.UnFqdn` from the external cert-manager dns
utilities, described by the spec as removing the trailing dot of an FQDN
("trailing dot removed"). -/
def unFqdn (s : String) : String :=
  if hasSuffix s "." then dropLastChars s 1 else s

/-- Go struct `dnsRecord` of `nicapi.go`: a DNS record as (de)serialized by the client.
Default values are the Go zero values, which is what `json.Marshal` sees for
fields the code leaves unset. -/
structure dnsRecord where
  id : Int := 0
  name : String := ""
  ttl : String := ""
  type : String := ""
  data : String := ""
  zoneID : String := ""
  deriving DecidableEq, Repr

/-- The inner `Zone` struct of `nicapi.go` `dnsZone`. -/
structure zoneInfo where
  id : Int := 0
  name : String := ""
  records : List dnsRecord := []
  deriving DecidableEq, Repr

/-- Go struct `dnsZone` of `nicapi.go`: a zone snapshot as returned by `/dns/zones/show`. -/
structure dnsZone where
  zone : zoneInfo := {}
  deriving DecidableEq, Repr

/-- Go struct `dnsPostRecord` of `nicapi.go`: request body for record add/delete calls. -/
structure dnsPostRecord where
  zone : String := ""
  records : List dnsRecord := []
  deriving DecidableEq, Repr

/-- The body of an HTTP request issued by the client: either the
`{"zone": ...}` query body of `/dns/zones/show` or a `dnsPostRecord`. -/
inductive reqBody where
  | zoneQuery (zone : String)
  | postRecord (p : dnsPostRecord)
  deriving DecidableEq, Repr

/-- One HTTP request as handed to `makeRequest`: method, URI and body. -/
structure apiCall where
  method : String
  uri : String
  body : reqBody
  deriving DecidableEq, Repr

/-- The record-mutating calls of a request trace (adds and deletes,
excluding the read-only zone fetch). -/
def mutatingCalls (calls : List apiCall) : List apiCall :=
  calls.filter fun c =>
    c.uri == "/dns/zones/records/add" || c.uri == "/dns/zones/records/delete"

/-- The `GET /dns/zones/show` request issued by `getHostedZone` for the
authoritative zone returned by `util.FindZoneByFqdn`. -/
def showCall (authZone : String) : apiCall :=
  ⟨"GET", "/dns/zones/show", reqBody.zoneQuery (unFqdn authZone)⟩

/-- The delete request built in `Present` (lines 74-88) and `CleanUp`
(lines 136-150): body carries the zone name and a single record holding
only the relative name (remaining fields Go zero values); sent with method
`"DELETE"` to `/dns/zones/records/delete`. -/
def deleteCall (zoneName recName : String) : apiCall :=
  ⟨"DELETE", "/dns/zones/records/delete",
    reqBody.postRecord ⟨zoneName, [{ name := recName }]⟩⟩

/-- The create request built in `Present` (lines 94-112): zone name plus a
single record with the relative name, `TTL: strconv.Itoa(120*60)`,
`Type: "TXT"` and `Data: value`; sent with method `"POST"` to
`/dns/zones/records/add`. -/
def addCall (zoneName recName value : String) : apiCall :=
  ⟨"POST", "/dns/zones/records/add",
    reqBody.postRecord
      ⟨zoneName,
        [{ name := recName, ttl := toString (120 * 60), type := "TXT",
           data := value }]⟩⟩

/-- The Go `error` values `findTxtRecord` may produce: the package-level
sentinel `errNoExistingRecord`, or (for modelling the type of Go errors)
any other error message. -/
inductive goError where
  | noExistingRecord
  | other (msg : String)
  deriving DecidableEq, Repr

/-- The message carried by a Go error value (`errors.New` text). -/
def goError.message : goError → String
  | .noExistingRecord => "no existing record found"
  | .other msg => msg

/-- Source lines 66 and 194 of `nicapi.go`: the relative record name, obtained as
`strings.TrimSuffix(util.UnFqdn(fqdn), fmt.Sprintf(".%s", zone.Zone.Name))`. -/
def deriveRecordName (fqdn zoneName : String) : String :=
  trimSuffix (unFqdn fqdn) ("." ++ zoneName)

/-- Go function `findTxtRecord` of `nicapi.go` (lines 192-203), value part: scan the listed
zone records in order and return the first whose name equals the derived relative
name. -/
def findTxtRecord (zone : dnsZone) (fqdn : String) : Option dnsRecord :=
  zone.zone.records.find? fun rec =>
    rec.name == deriveRecordName fqdn zone.zone.name

/-- Go function `findTxtRecord` with its full Go signature
`(*dnsRecord, error)`: the first matching record with a nil error, or a nil
record with the sentinel `errNoExistingRecord`. -/
def findTxtRecordGo (zone : dnsZone) (fqdn : String) :
    Option dnsRecord × Option goError :=
  match findTxtRecord zone fqdn with
  | some rec => (some rec, none)
  | none => (none, some goError.noExistingRecord)

/-- The guard of the early-return branch in `Present` (line 61):
`err != nil && err != errNoExistingRecord`. -/
def realErrorGuard (zone : dnsZone) (fqdn : String) : Bool :=
  (findTxtRecordGo zone fqdn).2 != none &&
    (findTxtRecordGo zone fqdn).2 != some goError.noExistingRecord

/-- Outcomes of the external collaborators for one `Present`/`CleanUp`
invocation: the result of `util.FindZoneByFqdn`, the result of the
`/dns/zones/show` fetch-and-decode (`getHostedZone`), and the results of the
delete and add requests if they are issued. Given these, the Go functions
are deterministic. -/
structure apiOutcomes where
  authZone : Except String String
  fetch : Except String dnsZone
  deleteResp : Except String Unit
  addResp : Except String Unit

/-- Go method `Present` of `nicapi.go` (lines 53-118): returns the Go result and the
ordered trace of HTTP requests issued. -/
def Present (o : apiOutcomes) (domain fqdn value : String) :
    Except String Unit × List apiCall :=
  match o.authZone with
  | .error err => (.error err, [])
  | .ok authZone =>
    match o.fetch with
    | .error err => (.error err, [showCall authZone])
    | .ok zone =>
      if realErrorGuard zone fqdn then
        -- this is a real error
        (.error (((findTxtRecordGo zone fqdn).2.map goError.message).getD ""),
          [showCall authZone])
      else
        let recordName := deriveRecordName fqdn zone.zone.name
        let addPhase : List apiCall → Except String Unit × List apiCall :=
          fun prior =>
            match o.addResp with
            | .error err =>
                (.error err, prior ++ [addCall zone.zone.name recordName value])
            | .ok _ =>
                (.ok (), prior ++ [addCall zone.zone.name recordName value])
        match (findTxtRecordGo zone fqdn).1 with
        | some record =>
          if record.data == value then
            -- the record is already set to the desired value
            (.ok (), [showCall authZone])
          else
            match o.deleteResp with
            | .error err =>
                (.error err,
                  [showCall authZone, deleteCall zone.zone.name recordName])
            | .ok _ =>
                addPhase [showCall authZone, deleteCall zone.zone.name recordName]
        | none => addPhase [showCall authZone]

/-- Go method `CleanUp` of `nicapi.go` (lines 121-156): returns the Go result and the
ordered trace of HTTP requests issued. -/
def CleanUp (o : apiOutcomes) (domain fqdn value : String) :
    Except String Unit × List apiCall :=
  match o.authZone with
  | .error err => (.error err, [])
  | .ok authZone =>
    match o.fetch with
    | .error err => (.error err, [showCall authZone])
    | .ok zone =>
      match (findTxtRecordGo zone fqdn).2 with
      | some goError.noExistingRecord =>
        -- Nothing to cleanup
        (.ok (), [showCall authZone])
      | some e => (.error e.message, [showCall authZone])
      | none =>
        let recordName := deriveRecordName fqdn zone.zone.name
        match o.deleteResp with
        | .error err =>
            (.error err, [showCall authZone, deleteCall zone.zone.name recordName])
        | .ok _ =>
            (.ok (), [showCall authZone, deleteCall zone.zone.name recordName])

/-- An error/warning/success message of the response envelope
(local struct `APIMessage` of `makeRequest`). -/
structure APIMessage where
  code : Int := 0
  message : String := ""
  deriving DecidableEq, Repr

/-- The `messages` part of the response envelope. -/
structure apiMessages where
  errors : List APIMessage := []
  warnings : List APIMessage := []
  success : List APIMessage := []
  deriving DecidableEq, Repr

/-- The `metadata` part of the response envelope. -/
structure apiMetaData where
  clientTransactionId : String := ""
  serverTransactionId : String := ""
  deriving DecidableEq, Repr

/-- Local struct `APIResponse` of `makeRequest`: the decoded response envelope.
The raw `data` payload is kept opaque as a string. -/
structure APIResponse where
  metaData : apiMetaData := {}
  messages : apiMessages := {}
  status : String := ""
  data : String := ""
  deriving DecidableEq, Repr

/-- The `errStr` accumulation loop of `makeRequest` (lines 263-266):
`errStr += fmt.Sprintf("\t Error: %d: %s", apiErr.Code, apiErr.Message)`. -/
def errString (msgs : List APIMessage) : String :=
  msgs.foldl (fun acc m => acc ++ "\t Error: " ++ toString m.code ++ ": " ++ m.message) ""

/-- The envelope-handling tail of `makeRequest` (lines 261-272): map a
decoded envelope to the returned payload or the returned error. -/
def checkResponse (r : APIResponse) : Except String String :=
  if r.status != "success" then
    if r.messages.errors.length > 0 then
      .error ("API Error \n" ++ errString r.messages.errors)
    else
      .error "API error"
  else
    .ok r.data

/-- Occurrence of `sub` as a contiguous substring of `s`. -/
def strContains (s sub : String) : Prop :=
  ∃ pre post : String, s = pre ++ sub ++ post

/-- A zone with the same records transformed pointwise (used to state that
record lookup ignores everything but the name). -/
def mapZoneRecords (f : dnsRecord → dnsRecord) (z : dnsZone) : dnsZone :=
  ⟨⟨z.zone.id, z.zone.name, z.zone.records.map f⟩⟩

/-- Modelled from the spec: the documented provider effect of the API
endpoints on a zone snapshot (section 6: `/dns/zones/records/add` creates the
carried records, `/dns/zones/records/delete` removes the records named in the
body, the zone fetch reads without mutating). Only used to express that a
trace without mutating calls leaves the provider state unchanged. -/
def applyCall (z : dnsZone) (c : apiCall) : dnsZone :=
  match c.body with
  | .zoneQuery _ => z
  | .postRecord p =>
    if c.uri == "/dns/zones/records/add" then
      ⟨⟨z.zone.id, z.zone.name, z.zone.records ++ p.records⟩⟩
    else if c.uri == "/dns/zones/records/delete" then
      ⟨⟨z.zone.id, z.zone.name,
        z.zone.records.filter fun r => p.records.all fun d => r.name != d.name⟩⟩
    else z

/- String lemmas about the Go `strings` operations used by the solver. -/

lemma hasSuffix_append (s t : String) : hasSuffix (s ++ t) t = true := by
  simp only [hasSuffix, String.data_append, List.isSuffixOf_iff_suffix]
  exact List.suffix_append s.data t.data

lemma dropLastChars_append (s t : String) : dropLastChars (s ++ t) t.length = s := by
  apply String.ext
  simp only [dropLastChars, String.data_append, String.length]
  simp [List.length_append]

lemma trimSuffix_append (s t : String) : trimSuffix (s ++ t) t = s := by
  rw [trimSuffix, if_pos (hasSuffix_append s t), dropLastChars_append]

lemma unFqdn_append_dot (s : String) : unFqdn (s ++ ".") = s := by
  rw [unFqdn, if_pos (hasSuffix_append s ".")]
  exact dropLastChars_append s "."

lemma trimSuffix_noop (s t : String) (h : hasSuffix s t = false) :
    trimSuffix s t = s := by
  rw [trimSuffix, if_neg (by simp [h])]

/- Branch characterizations of `Present` and `CleanUp`. -/

lemma realErrorGuard_eq_false (z : dnsZone) (fqdn : String) :
    realErrorGuard z fqdn = false := by
  cases hf : findTxtRecord z fqdn <;> simp [realErrorGuard, findTxtRecordGo, hf]

lemma present_found_same (o : apiOutcomes) (az : String) (z : dnsZone)
    (r : dnsRecord) (domain fqdn value : String)
    (h1 : o.authZone = .ok az) (h2 : o.fetch = .ok z)
    (h3 : findTxtRecord z fqdn = some r) (h4 : r.data = value) :
    Present o domain fqdn value = (.ok (), [showCall az]) := by
  simp [Present, h1, h2, realErrorGuard_eq_false, findTxtRecordGo, h3, h4]

lemma present_found_diff_delErr (o : apiOutcomes) (az : String) (z : dnsZone)
    (r : dnsRecord) (domain fqdn value err : String)
    (h1 : o.authZone = .ok az) (h2 : o.fetch = .ok z)
    (h3 : findTxtRecord z fqdn = some r) (h4 : r.data ≠ value)
    (hd : o.deleteResp = .error err) :
    Present o domain fqdn value =
      (.error err,
        [showCall az,
         deleteCall z.zone.name (deriveRecordName fqdn z.zone.name)]) := by
  simp [Present, h1, h2, realErrorGuard_eq_false, findTxtRecordGo, h3, h4, hd]

lemma present_found_diff_addErr (o : apiOutcomes) (az : String) (z : dnsZone)
    (r : dnsRecord) (domain fqdn value err : String)
    (h1 : o.authZone = .ok az) (h2 : o.fetch = .ok z)
    (h3 : findTxtRecord z fqdn = some r) (h4 : r.data ≠ value)
    (hd : o.deleteResp = .ok ()) (ha : o.addResp = .error err) :
    Present o domain fqdn value =
      (.error err,
        [showCall az,
         deleteCall z.zone.name (deriveRecordName fqdn z.zone.name),
         addCall z.zone.name (deriveRecordName fqdn z.zone.name) value]) := by
  simp [Present, h1, h2, realErrorGuard_eq_false, findTxtRecordGo, h3, h4, hd, ha]

lemma present_found_diff_ok (o : apiOutcomes) (az : String) (z : dnsZone)
    (r : dnsRecord) (domain fqdn value : String)
    (h1 : o.authZone = .ok az) (h2 : o.fetch = .ok z)
    (h3 : findTxtRecord z fqdn = some r) (h4 : r.data ≠ value)
    (hd : o.deleteResp = .ok ()) (ha : o.addResp = .ok ()) :
    Present o domain fqdn value =
      (.ok (),
        [showCall az,
         deleteCall z.zone.name (deriveRecordName fqdn z.zone.name),
         addCall z.zone.name (deriveRecordName fqdn z.zone.name) value]) := by
  simp [Present, h1, h2, realErrorGuard_eq_false, findTxtRecordGo, h3, h4, hd, ha]

lemma present_not_found_addErr (o : apiOutcomes) (az : String) (z : dnsZone)
    (domain fqdn value err : String)
    (h1 : o.authZone = .ok az) (h2 : o.fetch = .ok z)
    (h3 : findTxtRecord z fqdn = none) (ha : o.addResp = .error err) :
    Present o domain fqdn value =
      (.error err,
        [showCall az,
         addCall z.zone.name (deriveRecordName fqdn z.zone.name) value]) := by
  simp [Present, h1, h2, realErrorGuard_eq_false, findTxtRecordGo, h3, ha]

lemma present_not_found_ok (o : apiOutcomes) (az : String) (z : dnsZone)
    (domain fqdn value : String)
    (h1 : o.authZone = .ok az) (h2 : o.fetch = .ok z)
    (h3 : findTxtRecord z fqdn = none) (ha : o.addResp = .ok ()) :
    Present o domain fqdn value =
      (.ok (),
        [showCall az,
         addCall z.zone.name (deriveRecordName fqdn z.zone.name) value]) := by
  simp [Present, h1, h2, realErrorGuard_eq_false, findTxtRecordGo, h3, ha]

lemma cleanup_absent (o : apiOutcomes) (az : String) (z : dnsZone)
    (domain fqdn value : String)
    (h1 : o.authZone = .ok az) (h2 : o.fetch = .ok z)
    (h3 : findTxtRecord z fqdn = none) :
    CleanUp o domain fqdn value = (.ok (), [showCall az]) := by
  simp [CleanUp, h1, h2, findTxtRecordGo, h3]

lemma cleanup_found_delErr (o : apiOutcomes) (az : String) (z : dnsZone)
    (r : dnsRecord) (domain fqdn value err : String)
    (h1 : o.authZone = .ok az) (h2 : o.fetch = .ok z)
    (h3 : findTxtRecord z fqdn = some r) (hd : o.deleteResp = .error err) :
    CleanUp o domain fqdn value =
      (.error err,
        [showCall az,
         deleteCall z.zone.name (deriveRecordName fqdn z.zone.name)]) := by
  simp [CleanUp, h1, h2, findTxtRecordGo, h3, hd]

lemma cleanup_found_ok (o : apiOutcomes) (az : String) (z : dnsZone)
    (r : dnsRecord) (domain fqdn value : String)
    (h1 : o.authZone = .ok az) (h2 : o.fetch = .ok z)
    (h3 : findTxtRecord z fqdn = some r) (hd : o.deleteResp = .ok ()) :
    CleanUp o domain fqdn value =
      (.ok (),
        [showCall az,
         deleteCall z.zone.name (deriveRecordName fqdn z.zone.name)]) := by
  simp [CleanUp, h1, h2, findTxtRecordGo, h3, hd]

/-- C1: if the fetched zone snapshot contains a record whose derived relative
name matches and whose data already equals `value`, `Present` returns success
with a trace containing no mutating call (no delete, no add), and — the
provider state being unchanged by that trace — re-running `Present` with the
same arguments against the resulting state gives the very same outcome. -/
theorem present_noop_when_value_already_set (o : apiOutcomes) (az : String)
    (z : dnsZone) (r : dnsRecord) (domain fqdn value : String)
    (h1 : o.authZone = .ok az) (h2 : o.fetch = .ok z)
    (h3 : findTxtRecord z fqdn = some r) (h4 : r.data = value) :
    (Present o domain fqdn value).1 = .ok () ∧
    mutatingCalls (Present o domain fqdn value).2 = [] ∧
    Present ⟨o.authZone, .ok ((Present o domain fqdn value).2.foldl applyCall z),
        o.deleteResp, o.addResp⟩ domain fqdn value
      = Present o domain fqdn value := by
  have hp := present_found_same o az z r domain fqdn value h1 h2 h3 h4
  refine ⟨by rw [hp], by rw [hp]; rfl, ?_⟩
  have ho : (⟨o.authZone, .ok z, o.deleteResp, o.addResp⟩ : apiOutcomes) = o := by
    cases o
    simp_all
  rw [hp]
  show Present ⟨o.authZone, .ok z, o.deleteResp, o.addResp⟩ domain fqdn value
    = (.ok (), [showCall az])
  rw [ho, hp]

/-- Witness for C1 at a concrete zone snapshot already holding the value. -/
theorem present_noop_when_value_already_set_witness :
    (Present ⟨.ok "example.com.",
        .ok ⟨⟨1, "example.com",
          [{ name := "_acme-challenge", type := "TXT", data := "abc" }]⟩⟩,
        .ok (), .ok ()⟩ "example.com" "_acme-challenge.example.com." "abc").1
        = .ok () ∧
    mutatingCalls (Present ⟨.ok "example.com.",
        .ok ⟨⟨1, "example.com",
          [{ name := "_acme-challenge", type := "TXT", data := "abc" }]⟩⟩,
        .ok (), .ok ()⟩ "example.com" "_acme-challenge.example.com." "abc").2
        = [] := by
  have h := present_noop_when_value_already_set
    ⟨.ok "example.com.",
      .ok ⟨⟨1, "example.com",
        [{ name := "_acme-challenge", type := "TXT", data := "abc" }]⟩⟩,
      .ok (), .ok ()⟩ "example.com."
    ⟨⟨1, "example.com",
      [{ name := "_acme-challenge", type := "TXT", data := "abc" }]⟩⟩
    { name := "_acme-challenge", type := "TXT", data := "abc" }
    "example.com" "_acme-challenge.example.com." "abc" rfl rfl rfl rfl
  exact ⟨h.1, h.2.1⟩

/-- C2: if the snapshot holds a matching record whose data differs from
`value`, `Present` issues exactly one delete to `/dns/zones/records/delete`
followed by exactly one create to `/dns/zones/records/add`, in that order
(when both succeed the trace is exactly fetch, delete, add), and it returns
success only if both mutating calls succeed. -/
theorem present_replace_semantics (o : apiOutcomes) (az : String)
    (z : dnsZone) (r : dnsRecord) (domain fqdn value : String)
    (h1 : o.authZone = .ok az) (h2 : o.fetch = .ok z)
    (h3 : findTxtRecord z fqdn = some r) (h4 : r.data ≠ value) :
    (o.deleteResp = .ok () → o.addResp = .ok () →
      Present o domain fqdn value =
        (.ok (), [showCall az,
                  deleteCall z.zone.name (deriveRecordName fqdn z.zone.name),
                  addCall z.zone.name (deriveRecordName fqdn z.zone.name) value]) ∧
      mutatingCalls (Present o domain fqdn value).2 =
        [deleteCall z.zone.name (deriveRecordName fqdn z.zone.name),
         addCall z.zone.name (deriveRecordName fqdn z.zone.name) value])
    ∧ ((Present o domain fqdn value).1 = .ok () →
        o.deleteResp = .ok () ∧ o.addResp = .ok ()) := by
  constructor
  · intro hd ha
    have hp := present_found_diff_ok o az z r domain fqdn value h1 h2 h3 h4 hd ha
    exact ⟨hp, by rw [hp]; rfl⟩
  · intro hok
    rcases hdel : o.deleteResp with derr | du
    · have hp :=
        present_found_diff_delErr o az z r domain fqdn value derr h1 h2 h3 h4 hdel
      rw [hp] at hok
      simp at hok
    · cases du
      rcases hadd : o.addResp with aerr | au
      · have hp :=
          present_found_diff_addErr o az z r domain fqdn value aerr h1 h2 h3 h4
            hdel hadd
        rw [hp] at hok
        simp at hok
      · cases au
        exact ⟨rfl, rfl⟩

/-- Witness for C2: existing record with value `"old"`, new value `"new"`:
fetch, then exactly one delete, then one add. -/
theorem present_replace_semantics_witness :
    Present ⟨.ok "example.com.",
        .ok ⟨⟨1, "example.com",
          [{ name := "_acme-challenge", type := "TXT", data := "old" }]⟩⟩,
        .ok (), .ok ()⟩ "example.com" "_acme-challenge.example.com." "new" =
      (.ok (), [showCall "example.com.",
                deleteCall "example.com" "_acme-challenge",
                addCall "example.com" "_acme-challenge" "new"]) := by
  have h := present_replace_semantics
    ⟨.ok "example.com.",
      .ok ⟨⟨1, "example.com",
        [{ name := "_acme-challenge", type := "TXT", data := "old" }]⟩⟩,
      .ok (), .ok ()⟩ "example.com."
    ⟨⟨1, "example.com",
      [{ name := "_acme-challenge", type := "TXT", data := "old" }]⟩⟩
    { name := "_acme-challenge", type := "TXT", data := "old" }
    "example.com" "_acme-challenge.example.com." "new" rfl rfl rfl (by decide)
  exact (h.1 rfl rfl).1

/-- C4: if the fetched zone snapshot contains no record with the derived
relative name, `CleanUp` returns success and its trace contains no mutating
call. -/
theorem cleanup_noop_when_no_record (o : apiOutcomes) (az : String)
    (z : dnsZone) (domain fqdn value : String)
    (h1 : o.authZone = .ok az) (h2 : o.fetch = .ok z)
    (h3 : findTxtRecord z fqdn = none) :
    CleanUp o domain fqdn value = (.ok (), [showCall az]) ∧
    mutatingCalls (CleanUp o domain fqdn value).2 = [] := by
  have hc := cleanup_absent o az z domain fqdn value h1 h2 h3
  exact ⟨hc, by rw [hc]; rfl⟩

/-- C5: the derived relative record name is obtained by first removing the
trailing dot of the FQDN and then stripping the suffix `"."` followed by the
zone name: for any relative label and zone name the derivation recovers the
relative label, and in particular zone `example.com` with FQDN
`_acme-challenge.example.com.` derives `_acme-challenge`. -/
theorem deriveRecordName_strips_zone_suffix (rel zoneName : String) :
    deriveRecordName (rel ++ "." ++ zoneName ++ ".") zoneName = rel ∧
    deriveRecordName "_acme-challenge.example.com." "example.com"
      = "_acme-challenge" := by
  constructor
  · rw [deriveRecordName, unFqdn_append_dot, String.append_assoc,
      trimSuffix_append]
  · rfl

/-- C9: `findTxtRecord` either returns a record with a nil error or returns
exactly the sentinel `errNoExistingRecord` and never any other error; hence
the guard of the "this is a real error" branch of `Present` (line 61) is
always false and the branch is unreachable. -/
theorem findTxtRecord_error_only_sentinel (z : dnsZone) (fqdn : String) :
    ((findTxtRecordGo z fqdn).2 = none ∨
      (findTxtRecordGo z fqdn).2 = some goError.noExistingRecord) ∧
    realErrorGuard z fqdn = false := by
  refine ⟨?_, realErrorGuard_eq_false z fqdn⟩
  cases hf : findTxtRecord z fqdn <;> simp [findTxtRecordGo, hf]

/-- C10: when the unqualified FQDN does not end in `"."` followed by the
zone name, the suffix strip is a no-op, so the derived name is the entire
unqualified FQDN; `Present` proceeds with that name rather than failing (on
an empty zone it succeeds, creating a record under the full unqualified
FQDN). -/
theorem deriveRecordName_noop_without_zone_suffix (fqdn zoneName : String)
    (h : hasSuffix (unFqdn fqdn) ("." ++ zoneName) = false) :
    deriveRecordName fqdn zoneName = unFqdn fqdn ∧
    ∀ az domain value : String,
      Present ⟨.ok az, .ok ⟨⟨0, zoneName, []⟩⟩, .ok (), .ok ()⟩ domain fqdn value
        = (.ok (), [showCall az, addCall zoneName (unFqdn fqdn) value]) := by
  have hd : deriveRecordName fqdn zoneName = unFqdn fqdn :=
    trimSuffix_noop _ _ h
  refine ⟨hd, fun az domain value => ?_⟩
  have hz := present_not_found_ok ⟨.ok az, .ok ⟨⟨0, zoneName, []⟩⟩, .ok (), .ok ()⟩
    az ⟨⟨0, zoneName, []⟩⟩ domain fqdn value rfl rfl rfl rfl
  rw [hz]
  show (Except.ok (),
      [showCall az, addCall zoneName (deriveRecordName fqdn zoneName) value]) = _
  rw [hd]

/-- Witness for C10: FQDN `foo.org.` against zone `example.com`. -/
theorem deriveRecordName_noop_without_zone_suffix_witness :
    deriveRecordName "foo.org." "example.com" = unFqdn "foo.org." ∧
    ∀ az domain value : String,
      Present ⟨.ok az, .ok ⟨⟨0, "example.com", []⟩⟩, .ok (), .ok ()⟩ domain
          "foo.org." value
        = (.ok (), [showCall az, addCall "example.com" (unFqdn "foo.org.") value]) :=
  deriveRecordName_noop_without_zone_suffix "foo.org." "example.com" (by decide)

lemma find?_eq_head_of_filter {α : Type} (p : α → Bool) (l : List α) :
    l.find? p = (l.filter p).head? := by
  induction l with
  | nil => rfl
  | cons a t ih =>
    cases h : p a with
    | true => rw [List.find?_cons_of_pos _ h, List.filter_cons_of_pos h]; rfl
    | false => rw [List.find?_cons_of_neg _ (by simp [h]), List.filter_cons_of_neg (by simp [h]), ih]

/-- C8: lookup and deletion are keyed purely by name: `findTxtRecord` returns
the first record in list order whose name equals the derived relative name,
it is invariant under any transformation of the records that preserves names
(type and data are ignored), and `CleanUp` never reads its `value` argument,
deleting the located record without comparing its data. -/
theorem lookup_and_delete_keyed_by_name :
    (∀ (z : dnsZone) (fqdn : String),
      findTxtRecord z fqdn =
        (z.zone.records.filter fun rec =>
          rec.name == deriveRecordName fqdn z.zone.name).head?) ∧
    (∀ (z : dnsZone) (fqdn : String) (f : dnsRecord → dnsRecord),
      (∀ rec, (f rec).name = rec.name) →
      findTxtRecord (mapZoneRecords f z) fqdn =
        (findTxtRecord z fqdn).map f) ∧
    (∀ (o : apiOutcomes) (domain fqdn v v' : String),
      CleanUp o domain fqdn v = CleanUp o domain fqdn v') := by
  refine ⟨?_, ?_, fun o d fq v v' => rfl⟩
  · intro z fqdn
    exact find?_eq_head_of_filter _ _
  · intro z fqdn f hf
    have hp : ((fun rec => rec.name == deriveRecordName fqdn z.zone.name) ∘ f)
        = (fun rec => rec.name == deriveRecordName fqdn z.zone.name) := by
      funext rec
      simp [Function.comp, hf rec]
    simp [findTxtRecord, mapZoneRecords, List.find?_map, hp]

/-- Witness for C8: changing the type and data of a record does not change what
the lookup finds. -/
theorem lookup_and_delete_keyed_by_name_witness :
    findTxtRecord
        (mapZoneRecords (fun rec => { rec with type := "A", data := "changed" })
          ⟨⟨1, "example.com",
            [{ name := "_acme-challenge", type := "TXT", data := "abc" }]⟩⟩)
        "_acme-challenge.example.com."
      = (findTxtRecord
          ⟨⟨1, "example.com",
            [{ name := "_acme-challenge", type := "TXT", data := "abc" }]⟩⟩
          "_acme-challenge.example.com.").map
          (fun rec => { rec with type := "A", data := "changed" }) :=
  lookup_and_delete_keyed_by_name.2.1
    ⟨⟨1, "example.com",
      [{ name := "_acme-challenge", type := "TXT", data := "abc" }]⟩⟩
    "_acme-challenge.example.com."
    (fun rec => { rec with type := "A", data := "changed" })
    (fun rec => rfl)

/-- Witness for C4 at a concrete zone snapshot with an unrelated record. -/
theorem cleanup_noop_when_no_record_witness :
    CleanUp ⟨.ok "example.com.",
        .ok ⟨⟨1, "example.com", [{ name := "www", type := "A", data := "1.2.3.4" }]⟩⟩,
        .ok (), .ok ()⟩ "example.com" "_acme-challenge.example.com." "abc"
      = (.ok (), [showCall "example.com."]) ∧
    mutatingCalls (CleanUp ⟨.ok "example.com.",
        .ok ⟨⟨1, "example.com", [{ name := "www", type := "A", data := "1.2.3.4" }]⟩⟩,
        .ok (), .ok ()⟩ "example.com" "_acme-challenge.example.com." "abc").2 = [] :=
  cleanup_noop_when_no_record _ "example.com."
    ⟨⟨1, "example.com", [{ name := "www", type := "A", data := "1.2.3.4" }]⟩⟩
    "example.com" "_acme-challenge.example.com." "abc" rfl rfl rfl

/-- C3: every create request issued by `Present` goes to
`/dns/zones/records/add` and carries the name of the fetched zone, the derived
relative name, type `"TXT"`, the caller-supplied value as data and TTL
exactly the string `"7200"`; and in the end-to-end scenario of the spec (zone
`example.com` with no records) `Present` issues exactly one zone fetch and
one such add, succeeding. -/
theorem present_add_call_shape (o : apiOutcomes) (domain fqdn value : String) :
    (∀ c ∈ (Present o domain fqdn value).2,
      c.uri = "/dns/zones/records/add" →
      ∃ z, o.fetch = .ok z ∧
        c = ⟨"POST", "/dns/zones/records/add",
              reqBody.postRecord
                ⟨z.zone.name,
                  [{ name := deriveRecordName fqdn z.zone.name, ttl := "7200",
                     type := "TXT", data := value }]⟩⟩) ∧
    Present ⟨.ok "example.com.", .ok ⟨⟨1, "example.com", []⟩⟩, .ok (), .ok ()⟩
        "example.com" "_acme-challenge.example.com." "abc123"
      = (.ok (),
         [⟨"GET", "/dns/zones/show", reqBody.zoneQuery "example.com"⟩,
          ⟨"POST", "/dns/zones/records/add",
            reqBody.postRecord
              ⟨"example.com",
                [{ name := "_acme-challenge", ttl := "7200", type := "TXT",
                   data := "abc123" }]⟩⟩]) := by
  constructor
  · intro c hc hcuri
    rcases o with ⟨oaz, ofetch, odel, oadd⟩
    cases oaz with
    | error e => simp [Present] at hc
    | ok az =>
      cases ofetch with
      | error e =>
        simp [Present] at hc
        rw [hc] at hcuri
        simp [showCall] at hcuri
      | ok z =>
        refine ⟨z, rfl, ?_⟩
        cases hf : findTxtRecord z fqdn with
        | none =>
          cases oadd with
          | error e =>
            have hp := present_not_found_addErr ⟨.ok az, .ok z, odel, .error e⟩
              az z domain fqdn value e rfl rfl hf rfl
            rw [hp] at hc
            simp at hc
            rcases hc with hc | hc
            · rw [hc] at hcuri; simp [showCall, deleteCall] at hcuri
            · rw [hc]; rfl
          | ok u =>
            cases u
            have hp := present_not_found_ok ⟨.ok az, .ok z, odel, .ok ()⟩
              az z domain fqdn value rfl rfl hf rfl
            rw [hp] at hc
            simp at hc
            rcases hc with hc | hc
            · rw [hc] at hcuri; simp [showCall, deleteCall] at hcuri
            · rw [hc]; rfl
        | some r =>
          by_cases hv : r.data = value
          · have hp := present_found_same ⟨.ok az, .ok z, odel, oadd⟩
              az z r domain fqdn value rfl rfl hf hv
            rw [hp] at hc
            simp at hc
            rw [hc] at hcuri
            simp [showCall] at hcuri
          · cases odel with
            | error e =>
              have hp := present_found_diff_delErr ⟨.ok az, .ok z, .error e, oadd⟩
                az z r domain fqdn value e rfl rfl hf hv rfl
              rw [hp] at hc
              simp at hc
              rcases hc with hc | hc <;>
                (rw [hc] at hcuri; simp [showCall, deleteCall] at hcuri)
            | ok u =>
              cases u
              cases oadd with
              | error e =>
                have hp := present_found_diff_addErr
                  ⟨.ok az, .ok z, .ok (), .error e⟩
                  az z r domain fqdn value e rfl rfl hf hv rfl rfl
                rw [hp] at hc
                simp at hc
                rcases hc with hc | hc | hc
                · rw [hc] at hcuri; simp [showCall, deleteCall] at hcuri
                · rw [hc] at hcuri; simp [showCall, deleteCall] at hcuri
                · rw [hc]; rfl
              | ok u2 =>
                cases u2
                have hp := present_found_diff_ok ⟨.ok az, .ok z, .ok (), .ok ()⟩
                  az z r domain fqdn value rfl rfl hf hv rfl rfl
                rw [hp] at hc
                simp at hc
                rcases hc with hc | hc | hc
                · rw [hc] at hcuri; simp [showCall, deleteCall] at hcuri
                · rw [hc] at hcuri; simp [showCall, deleteCall] at hcuri
                · rw [hc]; rfl
  · rfl

/-- Witness for C3: the add call of the end-to-end scenario has the claimed
shape. -/
theorem present_add_call_shape_witness :
    ∃ z, (⟨.ok "example.com.", .ok ⟨⟨1, "example.com", []⟩⟩, .ok (), .ok ()⟩ :
        apiOutcomes).fetch = .ok z ∧
      (⟨"POST", "/dns/zones/records/add",
        reqBody.postRecord
          ⟨"example.com",
            [{ name := "_acme-challenge", ttl := "7200", type := "TXT",
               data := "abc123" }]⟩⟩ : apiCall)
      = ⟨"POST", "/dns/zones/records/add",
          reqBody.postRecord
            ⟨z.zone.name,
              [{ name := deriveRecordName "_acme-challenge.example.com."
                   z.zone.name,
                 ttl := "7200", type := "TXT", data := "abc123" }]⟩⟩ := by
  refine (present_add_call_shape
    ⟨.ok "example.com.", .ok ⟨⟨1, "example.com", []⟩⟩, .ok (), .ok ()⟩
    "example.com" "_acme-challenge.example.com." "abc123").1
    ⟨"POST", "/dns/zones/records/add",
      reqBody.postRecord
        ⟨"example.com",
          [{ name := "_acme-challenge", ttl := "7200", type := "TXT",
             data := "abc123" }]⟩⟩ ?_ rfl
  decide

lemma errString_acc (acc : String) (ms : List APIMessage) :
    ms.foldl (fun a m => a ++ "\t Error: " ++ toString m.code ++ ": " ++ m.message) acc
      = acc ++ errString ms := by
  induction ms generalizing acc with
  | nil =>
    simp only [errString, List.foldl_nil]
    rw [String.append_empty]
  | cons m rest ih =>
    simp only [errString, List.foldl_cons]
    rw [ih, ih ("" ++ "\t Error: " ++ toString m.code ++ ": " ++ m.message)]
    apply String.ext
    simp [String.data_append, List.append_assoc]

lemma errString_mem (ms : List APIMessage) (m : APIMessage) (hm : m ∈ ms) :
    ∃ pre post : String,
      errString ms
        = pre ++ ("\t Error: " ++ toString m.code ++ ": " ++ m.message) ++ post := by
  induction ms with
  | nil => cases hm
  | cons a rest ih =>
    have hcons : errString (a :: rest)
        = ("\t Error: " ++ toString a.code ++ ": " ++ a.message) ++ errString rest := by
      simp only [errString, List.foldl_cons]
      rw [errString_acc, errString_acc]
      apply String.ext
      simp [String.data_append, List.append_assoc]
    rcases List.mem_cons.mp hm with h | h
    · refine ⟨"", errString rest, ?_⟩
      subst h
      rw [hcons]
      apply String.ext
      simp [String.data_append, List.append_assoc]
    · rcases ih h with ⟨pre, post, hpp⟩
      refine ⟨("\t Error: " ++ toString a.code ++ ": " ++ a.message) ++ pre, post, ?_⟩
      rw [hcons, hpp]
      apply String.ext
      simp [String.data_append, List.append_assoc]

/-- C6: for every decoded envelope, a status other than exactly `"success"`
yields an error — whose text contains, for each reported error message, the
numeric code of that message and its text, and is the generic `"API error"`
when the error list is empty — while status exactly `"success"` returns the
raw data payload unmodified. -/
theorem makeRequest_envelope_mapping (r : APIResponse) :
    (r.status = "success" → checkResponse r = .ok r.data) ∧
    (r.status ≠ "success" → r.messages.errors = [] →
      checkResponse r = .error "API error") ∧
    (r.status ≠ "success" → ∀ m ∈ r.messages.errors,
      ∃ s, checkResponse r = .error s ∧
        strContains s (toString m.code) ∧ strContains s m.message) := by
  refine ⟨?_, ?_, ?_⟩
  · intro h
    simp [checkResponse, h]
  · intro h he
    simp [checkResponse, h, he]
  · intro h m hm
    have hlen : r.messages.errors.length > 0 := by
      cases hr : r.messages.errors with
      | nil => rw [hr] at hm; cases hm
      | cons a t => simp [hr]
    refine ⟨"API Error \n" ++ errString r.messages.errors, ?_, ?_, ?_⟩
    · simp [checkResponse, h, hlen]
    · rcases errString_mem r.messages.errors m hm with ⟨pre, post, hpp⟩
      refine ⟨"API Error \n" ++ pre ++ "\t Error: ", ": " ++ m.message ++ post, ?_⟩
      rw [hpp]
      apply String.ext
      simp [String.data_append, List.append_assoc]
    · rcases errString_mem r.messages.errors m hm with ⟨pre, post, hpp⟩
      refine ⟨"API Error \n" ++ pre ++ "\t Error: " ++ toString m.code ++ ": ",
        post, ?_⟩
      rw [hpp]
      apply String.ext
      simp [String.data_append, List.append_assoc]

/-- Witness for C6: an envelope with status `"error"` and the single error
message `{code: 1001, message: "invalid zone"}` maps to an error containing
both `1001` and `invalid zone`. -/
theorem makeRequest_envelope_mapping_witness :
    ∃ s, checkResponse ⟨{}, ⟨[⟨1001, "invalid zone"⟩], [], []⟩, "error", "d"⟩
        = .error s ∧
      strContains s (toString (1001 : Int)) ∧ strContains s "invalid zone" :=
  (makeRequest_envelope_mapping
      ⟨{}, ⟨[⟨1001, "invalid zone"⟩], [], []⟩, "error", "d"⟩).2.2
    (by decide) ⟨1001, "invalid zone"⟩ (by decide)

/-- Counterexample to C7 as stated: in a concrete `CleanUp` run the issued
request to `/dns/zones/records/delete` has HTTP method `"DELETE"`, not
`"POST"` (`makeRequest("DELETE", ...)` in the source). -/
theorem delete_method_not_post_counterexample :
    ∃ c ∈ (CleanUp ⟨.ok "example.com.",
        .ok ⟨⟨1, "example.com",
          [{ name := "_acme-challenge", type := "TXT", data := "abc" }]⟩⟩,
        .ok (), .ok ()⟩ "example.com" "_acme-challenge.example.com." "abc").2,
      c.uri = "/dns/zones/records/delete" ∧ ¬ c.method = "POST" := by
  refine ⟨deleteCall "example.com" "_acme-challenge", ?_, rfl, by decide⟩
  decide

/-- C7 amended: every delete request issued by `Present` or `CleanUp` goes to
`/dns/zones/records/delete` with HTTP method `"DELETE"` (the source passes
`"DELETE"`, not `POST`, to `makeRequest`), and its body carries the zone name
and a single record specifying only the relative record name (all other
record fields Go zero values). -/
theorem delete_call_shape (o : apiOutcomes) (domain fqdn value : String) :
    ∀ c ∈ (Present o domain fqdn value).2 ++ (CleanUp o domain fqdn value).2,
      c.uri = "/dns/zones/records/delete" →
      c.method = "DELETE" ∧
      ∃ z, o.fetch = .ok z ∧
        c.body = reqBody.postRecord
          ⟨z.zone.name,
            [{ id := 0, name := deriveRecordName fqdn z.zone.name, ttl := "",
               type := "", data := "", zoneID := "" }]⟩ := by
  intro c hc hcuri
  rcases o with ⟨oaz, ofetch, odel, oadd⟩
  rcases List.mem_append.mp hc with hc | hc
  all_goals {
    cases oaz with
    | error e => simp [Present, CleanUp] at hc
    | ok az =>
      cases ofetch with
      | error e =>
        simp [Present, CleanUp] at hc
        rw [hc] at hcuri
        simp [showCall] at hcuri
      | ok z =>
        refine ?_
        cases hf : findTxtRecord z fqdn with
        | none =>
          first
          | (have hp := cleanup_absent ⟨.ok az, .ok z, odel, oadd⟩
              az z domain fqdn value rfl rfl hf
             rw [hp] at hc
             simp at hc
             rw [hc] at hcuri
             simp [showCall] at hcuri)
          | (cases oadd with
             | error e =>
               have hp := present_not_found_addErr ⟨.ok az, .ok z, odel, .error e⟩
                 az z domain fqdn value e rfl rfl hf rfl
               rw [hp] at hc
               simp at hc
               rcases hc with hc | hc <;>
                 (rw [hc] at hcuri; simp [showCall, addCall] at hcuri)
             | ok u =>
               cases u
               have hp := present_not_found_ok ⟨.ok az, .ok z, odel, .ok ()⟩
                 az z domain fqdn value rfl rfl hf rfl
               rw [hp] at hc
               simp at hc
               rcases hc with hc | hc <;>
                 (rw [hc] at hcuri; simp [showCall, addCall] at hcuri))
        | some r =>
          first
          | (cases odel with
             | error e =>
               have hp := cleanup_found_delErr ⟨.ok az, .ok z, .error e, oadd⟩
                 az z r domain fqdn value e rfl rfl hf rfl
               rw [hp] at hc
               simp at hc
               rcases hc with hc | hc
               · rw [hc] at hcuri; simp [showCall] at hcuri
               · rw [hc]; exact ⟨rfl, z, rfl, rfl⟩
             | ok u =>
               cases u
               have hp := cleanup_found_ok ⟨.ok az, .ok z, .ok (), oadd⟩
                 az z r domain fqdn value rfl rfl hf rfl
               rw [hp] at hc
               simp at hc
               rcases hc with hc | hc
               · rw [hc] at hcuri; simp [showCall] at hcuri
               · rw [hc]; exact ⟨rfl, z, rfl, rfl⟩)
          | (by_cases hv : r.data = value
             · have hp := present_found_same ⟨.ok az, .ok z, odel, oadd⟩
                 az z r domain fqdn value rfl rfl hf hv
               rw [hp] at hc
               simp at hc
               rw [hc] at hcuri
               simp [showCall] at hcuri
             · cases odel with
               | error e =>
                 have hp := present_found_diff_delErr ⟨.ok az, .ok z, .error e, oadd⟩
                   az z r domain fqdn value e rfl rfl hf hv rfl
                 rw [hp] at hc
                 simp at hc
                 rcases hc with hc | hc
                 · rw [hc] at hcuri; simp [showCall] at hcuri
                 · rw [hc]; exact ⟨rfl, z, rfl, rfl⟩
               | ok u =>
                 cases u
                 cases oadd with
                 | error e =>
                   have hp := present_found_diff_addErr
                     ⟨.ok az, .ok z, .ok (), .error e⟩
                     az z r domain fqdn value e rfl rfl hf hv rfl rfl
                   rw [hp] at hc
                   simp at hc
                   rcases hc with hc | hc | hc
                   · rw [hc] at hcuri; simp [showCall] at hcuri
                   · rw [hc]; exact ⟨rfl, z, rfl, rfl⟩
                   · rw [hc] at hcuri; simp [addCall] at hcuri
                 | ok u2 =>
                   cases u2
                   have hp := present_found_diff_ok ⟨.ok az, .ok z, .ok (), .ok ()⟩
                     az z r domain fqdn value rfl rfl hf hv rfl rfl
                   rw [hp] at hc
                   simp at hc
                   rcases hc with hc | hc | hc
                   · rw [hc] at hcuri; simp [showCall] at hcuri
                   · rw [hc]; exact ⟨rfl, z, rfl, rfl⟩
                   · rw [hc] at hcuri; simp [addCall] at hcuri)
  }

/-- Witness for C7 (amended): the delete call of a concrete `CleanUp` run has
method `"DELETE"` and a name-only body. -/
theorem delete_call_shape_witness :
    (deleteCall "example.com" "_acme-challenge").method = "DELETE" ∧
    ∃ z, (⟨.ok "example.com.",
        .ok ⟨⟨1, "example.com",
          [{ name := "_acme-challenge", type := "TXT", data := "abc" }]⟩⟩,
        .ok (), .ok ()⟩ : apiOutcomes).fetch = .ok z ∧
      (deleteCall "example.com" "_acme-challenge").body
        = reqBody.postRecord
            ⟨z.zone.name,
              [{ id := 0,
                 name := deriveRecordName "_acme-challenge.example.com."
                   z.zone.name,
                 ttl := "", type := "", data := "", zoneID := "" }]⟩ := by
  refine delete_call_shape
    ⟨.ok "example.com.",
      .ok ⟨⟨1, "example.com",
        [{ name := "_acme-challenge", type := "TXT", data := "abc" }]⟩⟩,
      .ok (), .ok ()⟩ "example.com" "_acme-challenge.example.com." "abc"
    (deleteCall "example.com" "_acme-challenge") ?_ rfl
  decide

end Nicapi
